import Mathlib

/-!
Verification of the PageRank engine in `pagerank.py`.

The corpus (a Python dict mapping each page name to the set of pages it
links to) is embedded as a list of page names in dict insertion order
together with an out-link function; floating-point arithmetic is embedded
as exact rational arithmetic over `ℚ`.  The two sources of randomness
(`random.choice` for the initial uniform pick and `random.choices` for
the weighted picks) are modelled by an injected stream of natural numbers,
each draw selecting an index into the relevant population, so theorems
quantify over every possible sequence of draws.  The unbounded `while`
loop of `iterate_pagerank` takes a fuel parameter and returns `none` when
the fuel is exhausted, so nontermination is observable as `none` at every
fuel.  Python runtime exceptions are embedded as `PyError` values.
-/

namespace PageRank

/-- The corpus: `pages` lists the dict keys in insertion order, and
`links page` gives the out-link set of `page` (`corpus[page]`) as a list. -/
structure Corpus where
  pages : List String
  links : String → List String

/-- The data-model invariants of the graph: keys are distinct, out-link
sets contain no duplicates, every out-link is itself a key, and no page
links to itself. -/
structure Invariants (c : Corpus) : Prop where
  nodup : c.pages.Nodup
  links_nodup : ∀ q ∈ c.pages, (c.links q).Nodup
  links_sub : ∀ q ∈ c.pages, ∀ x ∈ c.links q, x ∈ c.pages
  no_self : ∀ q ∈ c.pages, q ∉ c.links q

/-- Python runtime errors relevant to the engine, together with the
error kinds the specification names (`EmptyCorpus`, `InvalidConfiguration`). -/
inductive PyError where
  | indexError
  | zeroDivisionError
  | keyError
  | emptyCorpus
  | invalidConfiguration
deriving DecidableEq

/-- `transition_model(corpus, page, damping_factor)`: the probability
distribution over the next page to visit, returned as the association
list built by iterating over the corpus keys in order. -/
def transition_model (c : Corpus) (page : String) (damping_factor : ℚ) :
    List (String × ℚ) :=
  if (c.links page).length = 0 then
    c.pages.map (fun p => (p, 1 / (c.pages.length : ℚ)))
  else
    let rand_link_page : ℚ := damping_factor / ((c.links page).length : ℚ)
    let rand_page_corpus : ℚ := (1 - damping_factor) / (c.pages.length : ℚ)
    c.pages.map (fun p =>
      (p, if p ∈ c.links page then rand_page_corpus + rand_link_page
          else rand_page_corpus))

/-- `random.choice(seq)` driven by one random draw `r`: raises
`IndexError` on an empty sequence, otherwise returns the element the
draw selects. -/
def random_choice (l : List String) (r : Nat) : Except PyError String :=
  if l.length = 0 then .error .indexError
  else .ok (l.getD (r % l.length) "")

/-- `random.choices(population, weights, k=1)[0]` driven by one random
draw `r`: returns the element of the population the draw selects. -/
def random_choices (population : List String) (r : Nat) : String :=
  population.getD (r % population.length) ""

/-- The sampling loop of `sample_pagerank` (`for _ in range(n - 1)`):
`k` remaining iterations, `i` the index of the next random draw,
`cur_sample` the current page, `d` the visit counters. -/
def sampleLoop (c : Corpus) (damping_factor : ℚ) (rand : Nat → Nat) :
    Nat → Nat → String → (String → ℤ) → (String → ℤ)
  | _, 0, _, d => d
  | i, Nat.succ k, cur_sample, d =>
    let next_sample_dict := transition_model c cur_sample damping_factor
    let next_sample_population := next_sample_dict.map Prod.fst
    let next_sample := random_choices next_sample_population (rand i)
    sampleLoop c damping_factor rand (i + 1) k next_sample
      (Function.update d next_sample (d next_sample + 1))

/-- The visit counters of `sample_pagerank` after the initial increment
at `cur_sample` and the `n - 1` subsequent weighted draws. -/
def sample_counts (c : Corpus) (damping_factor : ℚ) (n : ℤ) (rand : Nat → Nat)
    (cur_sample : String) : String → ℤ :=
  let d : String → ℤ := fun _ => 0
  let d := Function.update d cur_sample (d cur_sample + 1)
  sampleLoop c damping_factor rand 1 (n - 1).toNat cur_sample d

/-- `sample_pagerank(corpus, damping_factor, n)`: the initial pick
`random.choice(list(corpus.keys()))` raises `IndexError` on an empty
corpus; the final comprehension `{p: d[p] / n}` raises
`ZeroDivisionError` when `n = 0` and the corpus is non-empty. -/
def sample_pagerank (c : Corpus) (damping_factor : ℚ) (n : ℤ)
    (rand : Nat → Nat) : Except PyError (String → ℚ) :=
  match random_choice c.pages (rand 0) with
  | .error e => .error e
  | .ok cur_sample =>
    if n = 0 then .error .zeroDivisionError
    else .ok (fun p => ((sample_counts c damping_factor n rand cur_sample p : ℤ) : ℚ) / (n : ℚ))

/-- The inner `for p2 in corpus` loop of `iterate_pagerank` accumulating
`summation` for target page `p1`, reading ranks from `d`. -/
def summationLoop (c : Corpus) (d : String → ℚ) (p1 : String) :
    List String → ℚ → ℚ
  | [], summation => summation
  | p2 :: rest, summation =>
    let s1 := if p1 ∈ c.links p2 then summation + d p2 / ((c.links p2).length : ℚ)
              else summation
    let s2 := if (c.links p2).length = 0 then s1 + d p2 / ((c.pages.length : ℚ))
              else s1
    summationLoop c d p1 rest s2

/-- The new rank `new_d[p1]` computed by one body of the sweep loop:
`(1 - damping_factor) / N + damping_factor * summation`, where
`summation` is accumulated over every page of the corpus from `d`. -/
def new_rank (c : Corpus) (damping_factor : ℚ) (d : String → ℚ) (p1 : String) : ℚ :=
  (1 - damping_factor) / (c.pages.length : ℚ) +
    damping_factor * summationLoop c d p1 c.pages 0

/-- The `for p1 in corpus` sweep loop of `iterate_pagerank`: updates
`new_d` at every page, reading old ranks only from `d`. -/
def sweepLoop (c : Corpus) (damping_factor : ℚ) (d : String → ℚ) :
    List String → (String → ℚ) → (String → ℚ)
  | [], new_d => new_d
  | p1 :: rest, new_d =>
    sweepLoop c damping_factor d rest
      (Function.update new_d p1 (new_rank c damping_factor d p1))

/-- The `for page in corpus` comparison loop of `iterate_pagerank`:
sets `pr_value_change` to each page's absolute rank change in turn and
breaks as soon as one exceeds `0.001`; returns the final value of
`pr_value_change`. -/
def checkLoop (d new_d : String → ℚ) : List String → ℚ → ℚ
  | [], pr_value_change => pr_value_change
  | page :: rest, _ =>
    let pr_value_change := |d page - new_d page|
    if pr_value_change > 1 / 1000 then pr_value_change
    else checkLoop d new_d rest pr_value_change

/-- The `while pr_value_change > 0.001` loop of `iterate_pagerank`,
with fuel: one sweep writes into `new_d`, the comparison loop updates
`pr_value_change`, and `d = new_d.copy()` becomes the next rank vector.
Returns `none` when the fuel runs out before the loop exits. -/
def iterLoop (c : Corpus) (damping_factor : ℚ) :
    Nat → (String → ℚ) → (String → ℚ) → ℚ → Option (String → ℚ)
  | 0, _, _, _ => none
  | Nat.succ fuel, d, new_d, pr_value_change =>
    if pr_value_change > 1 / 1000 then
      let new_d2 := sweepLoop c damping_factor d c.pages new_d
      let prc := checkLoop d new_d2 c.pages pr_value_change
      iterLoop c damping_factor fuel new_d2 new_d2 prc
    else some d

/-- `iterate_pagerank(corpus, damping_factor)`: every rank starts at
`1 / N`, `new_d` starts at all zeroes, and `pr_value_change` starts at
`0.002`. -/
def iterate_pagerank (c : Corpus) (damping_factor : ℚ) (fuel : Nat) :
    Option (String → ℚ) :=
  iterLoop c damping_factor fuel
    (fun _ => 1 / (c.pages.length : ℚ)) (fun _ => 0) (2 / 1000)

/-- The PageRank recurrence exactly as the specification writes it:
`PR(p) = (1-d)/N + d * Σ_{q → p} PR(q)/L(q)`, the sum ranging over the
pages that link to `p`, plus `PR(q)/N` for every dangling page `q`. -/
def spec_new_rank (c : Corpus) (damping_factor : ℚ) (r : String → ℚ) (p : String) : ℚ :=
  (1 - damping_factor) / (c.pages.length : ℚ) +
    damping_factor *
      (((c.pages.filter (fun q => p ∈ c.links q)).map
          (fun q => r q / ((c.links q).length : ℚ))).sum +
       ((c.pages.filter (fun q => (c.links q).length = 0)).map
          (fun q => r q / ((c.pages.length : ℚ)))).sum)

/-- The empty corpus (zero nodes). -/
def cEmpty : Corpus := ⟨[], fun _ => []⟩

/-- A single isolated page with no out-links. -/
def c1 : Corpus := ⟨["A"], fun _ => []⟩

/-- The two-page mutual-link corpus `A → B`, `B → A`. -/
def c2 : Corpus :=
  ⟨["A", "B"], fun s => if s = "A" then ["B"] else if s = "B" then ["A"] else []⟩

/-- Two pages where `A → B` and `B` is dangling. -/
def c3 : Corpus :=
  ⟨["A", "B"], fun s => if s = "A" then ["B"] else []⟩

theorem sum_map_add (l : List String) (f g : String → ℚ) :
    (l.map fun a => f a + g a).sum = (l.map f).sum + (l.map g).sum := by
  induction l with
  | nil => simp
  | cons a t ih => simp only [List.map_cons, List.sum_cons, ih]; ring

theorem sum_map_const (l : List String) (q : ℚ) :
    (l.map fun _ => q).sum = (l.length : ℚ) * q := by
  induction l with
  | nil => simp
  | cons a t ih =>
    simp only [List.map_cons, List.sum_cons, ih, List.length_cons]
    push_cast
    ring

theorem sum_map_mul_left (l : List String) (q : ℚ) (f : String → ℚ) :
    (l.map fun a => q * f a).sum = q * (l.map f).sum := by
  induction l with
  | nil => simp
  | cons a t ih => simp only [List.map_cons, List.sum_cons, ih]; ring

theorem sum_map_ite (l : List String) (p : String → Prop) [DecidablePred p]
    (f : String → ℚ) :
    ((l.filter fun a => decide (p a)).map f).sum =
      (l.map fun a => if p a then f a else 0).sum := by
  induction l with
  | nil => simp
  | cons a t ih =>
    by_cases h : p a <;> simp [List.filter_cons, h, ih]

theorem sum_comm_list (l1 l2 : List String) (f : String → String → ℚ) :
    (l1.map fun p => (l2.map fun q => f p q).sum).sum =
      (l2.map fun q => (l1.map fun p => f p q).sum).sum := by
  induction l1 with
  | nil => simp
  | cons a t ih =>
    simp only [List.map_cons, List.sum_cons, ih, ← sum_map_add]

theorem filter_mem_length (l s : List String) (hl : l.Nodup) (hs : s.Nodup)
    (hsub : ∀ x ∈ s, x ∈ l) :
    (l.filter fun a => decide (a ∈ s)).length = s.length := by
  apply List.Perm.length_eq
  apply List.perm_of_nodup_nodup_toFinset_eq (hl.filter _) hs
  ext x
  simp only [List.mem_toFinset, List.mem_filter, decide_eq_true_eq]
  exact ⟨fun h => h.2, fun h => ⟨hsub x h, h⟩⟩

theorem sum_map_indicator (l s : List String) (q : ℚ) (hl : l.Nodup)
    (hs : s.Nodup) (hsub : ∀ x ∈ s, x ∈ l) :
    (l.map fun a => if a ∈ s then q else 0).sum = (s.length : ℚ) * q := by
  rw [← sum_map_ite l (fun a => a ∈ s) (fun _ => q), sum_map_const,
    filter_mem_length l s hl hs hsub]

theorem summationLoop_eq (c : Corpus) (d : String → ℚ) (p1 : String)
    (l : List String) (acc : ℚ) :
    summationLoop c d p1 l acc =
      acc + (l.map fun p2 =>
        (if p1 ∈ c.links p2 then d p2 / ((c.links p2).length : ℚ) else 0) +
        (if (c.links p2).length = 0 then d p2 / ((c.pages.length : ℚ)) else 0)).sum := by
  induction l generalizing acc with
  | nil => simp [summationLoop]
  | cons p2 t ih =>
    simp only [summationLoop, List.map_cons, List.sum_cons]
    rw [ih]
    by_cases h1 : p1 ∈ c.links p2 <;> by_cases h2 : (c.links p2).length = 0 <;>
      simp only [h1, h2, if_true, if_false, if_pos, if_neg, not_false_iff] <;> ring

theorem new_rank_eq_spec (c : Corpus) (damping_factor : ℚ) (d : String → ℚ)
    (p : String) :
    new_rank c damping_factor d p = spec_new_rank c damping_factor d p := by
  rw [new_rank, spec_new_rank, summationLoop_eq,
    sum_map_ite c.pages (fun q => p ∈ c.links q)
      (fun q => d q / ((c.links q).length : ℚ)),
    sum_map_ite c.pages (fun q => (c.links q).length = 0)
      (fun q => d q / ((c.pages.length : ℚ))),
    ← sum_map_add]
  ring

theorem sweepLoop_not_mem (c : Corpus) (damping_factor : ℚ) (d : String → ℚ)
    (l : List String) (nd : String → ℚ) (p : String) (hp : p ∉ l) :
    sweepLoop c damping_factor d l nd p = nd p := by
  induction l generalizing nd with
  | nil => rfl
  | cons a t ih =>
    have hpa : p ≠ a := fun h => hp (h ▸ List.mem_cons_self a t)
    rw [sweepLoop, ih _ fun hmem => hp (List.mem_cons_of_mem _ hmem),
      Function.update_noteq hpa]

theorem sweepLoop_mem (c : Corpus) (damping_factor : ℚ) (d : String → ℚ)
    (l : List String) (nd : String → ℚ) (p : String) (hp : p ∈ l) :
    sweepLoop c damping_factor d l nd p = new_rank c damping_factor d p := by
  induction l generalizing nd with
  | nil => cases hp
  | cons a t ih =>
    by_cases ht : p ∈ t
    · rw [sweepLoop, ih _ ht]
    · have hpa : p = a := by
        rcases List.mem_cons.mp hp with h | h
        · exact h
        · exact absurd h ht
      subst hpa
      rw [sweepLoop, sweepLoop_not_mem _ _ _ _ _ _ ht, Function.update_same]

theorem transition_model_fst (c : Corpus) (page : String) (damping_factor : ℚ) :
    (transition_model c page damping_factor).map Prod.fst = c.pages := by
  rw [transition_model]
  split <;> (rw [List.map_map]; exact List.map_id c.pages)

theorem lookup_map_pair (l : List String) (f : String → ℚ) (p : String)
    (hp : p ∈ l) :
    List.lookup p (l.map fun a => (a, f a)) = some (f p) := by
  induction l with
  | nil => cases hp
  | cons a t ih =>
    by_cases h : p = a
    · subst h
      simp [List.lookup]
    · have hpt : p ∈ t := by
        rcases List.mem_cons.mp hp with h2 | h2
        · exact absurd h2 h
        · exact h2
      simpa [List.lookup, beq_eq_false_iff_ne.mpr h] using ih hpt

theorem getD_mem (l : List String) (r : Nat) (hl : l ≠ []) :
    l.getD (r % l.length) "" ∈ l := by
  have hlen : 0 < l.length := List.length_pos.mpr hl
  have hlt : r % l.length < l.length := Nat.mod_lt _ hlen
  rw [List.getD_eq_getElem l "" hlt]
  exact List.getElem_mem hlt

theorem random_choice_ok (l : List String) (r : Nat) (s : String)
    (h : random_choice l r = .ok s) : l ≠ [] ∧ s ∈ l := by
  rw [random_choice] at h
  by_cases hl : l.length = 0
  · rw [if_pos hl] at h
    cases h
  · rw [if_neg hl] at h
    have hne : l ≠ [] := fun he => hl (by simp [he])
    cases h
    exact ⟨hne, getD_mem l r hne⟩

theorem sum_map_update (l : List String) (d : String → ℤ) (x : String) (v : ℤ)
    (hl : l.Nodup) (hx : x ∈ l) :
    (l.map (Function.update d x v)).sum = (l.map d).sum + v - d x := by
  induction l with
  | nil => cases hx
  | cons a t ih =>
    rcases List.mem_cons.mp hx with h | h
    · subst h
      have hnot : x ∉ t := (List.nodup_cons.mp hl).1
      have hmap : t.map (Function.update d x v) = t.map d :=
        List.map_congr_left fun b hb =>
          Function.update_noteq (fun hbx => hnot (by rwa [hbx] at hb)) _ _
      simp only [List.map_cons, List.sum_cons, hmap, Function.update_same]
      ring
    · have hax : a ≠ x := fun he => (List.nodup_cons.mp hl).1 (he ▸ h)
      simp only [List.map_cons, List.sum_cons,
        Function.update_noteq hax, ih (List.nodup_cons.mp hl).2 h]
      ring

theorem sum_map_div_cast (l : List String) (f : String → ℤ) (n : ℚ) :
    (l.map fun a => ((f a : ℤ) : ℚ) / n).sum = (((l.map f).sum : ℤ) : ℚ) / n := by
  induction l with
  | nil => simp
  | cons a t ih =>
    simp only [List.map_cons, List.sum_cons, ih]
    push_cast
    ring

theorem new_rank_sum (c : Corpus) (df : ℚ) (hinv : Invariants c)
    (hne : c.pages ≠ []) (d : String → ℚ) :
    (c.pages.map (new_rank c df d)).sum = (1 - df) + df * (c.pages.map d).sum := by
  have hN0 : c.pages.length ≠ 0 := fun h => hne (List.length_eq_zero.mp h)
  have hN : (c.pages.length : ℚ) ≠ 0 := Nat.cast_ne_zero.mpr hN0
  have h1 : c.pages.map (new_rank c df d) =
      c.pages.map (fun p => (1 - df) / (c.pages.length : ℚ) +
        df * (c.pages.map fun q =>
          (if p ∈ c.links q then d q / ((c.links q).length : ℚ) else 0) +
          (if (c.links q).length = 0 then d q / ((c.pages.length : ℚ)) else 0)).sum) :=
    List.map_congr_left fun p _ => by rw [new_rank, summationLoop_eq]; ring
  rw [h1, sum_map_add, sum_map_const, sum_map_mul_left, sum_comm_list]
  have h2 : c.pages.map (fun q => (c.pages.map fun p =>
      (if p ∈ c.links q then d q / ((c.links q).length : ℚ) else 0) +
      (if (c.links q).length = 0 then d q / ((c.pages.length : ℚ)) else 0)).sum) =
      c.pages.map d := by
    apply List.map_congr_left
    intro q hq
    rw [sum_map_add, sum_map_indicator c.pages (c.links q) _ hinv.nodup
      (hinv.links_nodup q hq) (hinv.links_sub q hq), sum_map_const]
    by_cases hL : (c.links q).length = 0
    · rw [if_pos hL, hL]
      push_cast
      field_simp
    · have hLQ : ((c.links q).length : ℚ) ≠ 0 := Nat.cast_ne_zero.mpr hL
      rw [if_neg hL]
      field_simp
  rw [h2]
  field_simp

theorem sweep_sum (c : Corpus) (df : ℚ) (hinv : Invariants c) (hne : c.pages ≠ [])
    (d nd : String → ℚ) (hsum : (c.pages.map d).sum = 1) :
    (c.pages.map (sweepLoop c df d c.pages nd)).sum = 1 := by
  have h1 : c.pages.map (sweepLoop c df d c.pages nd) =
      c.pages.map (new_rank c df d) :=
    List.map_congr_left fun p hp => sweepLoop_mem c df d c.pages nd p hp
  rw [h1, new_rank_sum c df hinv hne d, hsum]
  ring

theorem iterLoop_succ (c : Corpus) (df : ℚ) (fuel : Nat) (d nd : String → ℚ)
    (prc : ℚ) :
    iterLoop c df (fuel + 1) d nd prc =
      if prc > 1 / 1000 then
        iterLoop c df fuel (sweepLoop c df d c.pages nd)
          (sweepLoop c df d c.pages nd)
          (checkLoop d (sweepLoop c df d c.pages nd) c.pages prc)
      else some d := rfl

theorem iterLoop_sum (c : Corpus) (df : ℚ) (hinv : Invariants c)
    (hne : c.pages ≠ []) :
    ∀ (fuel : Nat) (d nd : String → ℚ) (prc : ℚ) (r : String → ℚ),
      iterLoop c df fuel d nd prc = some r →
      (c.pages.map d).sum = 1 → (c.pages.map r).sum = 1 := by
  intro fuel
  induction fuel with
  | zero => intro d nd prc r h; cases h
  | succ fuel ih =>
    intro d nd prc r h hsum
    rw [iterLoop_succ] at h
    by_cases hc : prc > 1 / 1000
    · rw [if_pos hc] at h
      exact ih _ _ _ _ h (sweep_sum c df hinv hne d nd hsum)
    · rw [if_neg hc] at h
      cases h
      exact hsum

theorem iterLoop_empty (c : Corpus) (hc : c.pages = []) (df : ℚ) :
    ∀ (fuel : Nat) (d nd : String → ℚ) (prc : ℚ), prc > 1 / 1000 →
      iterLoop c df fuel d nd prc = none := by
  intro fuel
  induction fuel with
  | zero => intro d nd prc _; rfl
  | succ fuel ih =>
    intro d nd prc hprc
    rw [iterLoop_succ, if_pos hprc, hc]
    exact ih _ _ _ hprc

theorem checkLoop_le_iff (d nd : String → ℚ) :
    ∀ (l : List String), l ≠ [] → ∀ prc : ℚ,
      (checkLoop d nd l prc ≤ 1 / 1000 ↔ ∀ p ∈ l, |d p - nd p| ≤ 1 / 1000) := by
  intro l
  induction l with
  | nil => intro h; exact absurd rfl h
  | cons a t ih =>
    intro _ prc
    simp only [checkLoop]
    by_cases h : |d a - nd a| > 1 / 1000
    · rw [if_pos h]
      constructor
      · intro hle
        exact absurd hle (not_le.mpr h)
      · intro hall
        exact absurd (hall a (List.mem_cons_self a t)) (not_le.mpr h)
    · rw [if_neg h]
      cases t with
      | nil =>
        simp only [checkLoop]
        constructor
        · intro hle p hp
          rw [List.mem_singleton] at hp
          subst hp
          exact hle
        · intro hall
          exact hall a (List.mem_cons_self a [])
      | cons b t2 =>
        rw [ih (List.cons_ne_nil b t2) _]
        constructor
        · intro hall p hp
          rcases List.mem_cons.mp hp with h2 | h2
          · subst h2
            exact not_lt.mp h
          · exact hall p h2
        · intro hall p hp
          exact hall p (List.mem_cons_of_mem a hp)

theorem sampleLoop_sum (c : Corpus) (df : ℚ) (rand : Nat → Nat)
    (hne : c.pages ≠ []) (hnodup : c.pages.Nodup) :
    ∀ (k i : Nat) (cur : String) (dcnt : String → ℤ),
      (c.pages.map (sampleLoop c df rand i k cur dcnt)).sum =
        (c.pages.map dcnt).sum + k := by
  intro k
  induction k with
  | zero => intro i cur dcnt; simp [sampleLoop]
  | succ k ih =>
    intro i cur dcnt
    simp only [sampleLoop]
    rw [ih, transition_model_fst]
    have hmem : random_choices c.pages (rand i) ∈ c.pages := by
      rw [random_choices]
      exact getD_mem c.pages _ hne
    rw [sum_map_update c.pages dcnt _ _ hnodup hmem]
    push_cast
    ring

/-- C3: for every non-empty graph, every key page with an empty out-link
set, and every damping factor in `[0,1]`, the transition model returns the
exact uniform distribution assigning `1/N` to every node of the graph,
independent of the damping factor. -/
theorem transition_model_dangling (c : Corpus) (page : String) (df : ℚ)
    (hne : c.pages ≠ []) (hpage : page ∈ c.pages) (hd : 0 ≤ df ∧ df ≤ 1)
    (hdangling : (c.links page).length = 0) :
    transition_model c page df =
      c.pages.map (fun p => (p, 1 / (c.pages.length : ℚ)))
    ∧ ∀ df2 : ℚ, transition_model c page df = transition_model c page df2 := by
  constructor
  · rw [transition_model, if_pos hdangling]
  · intro df2
    rw [transition_model, transition_model, if_pos hdangling, if_pos hdangling]

theorem transition_model_dangling_witness :
    transition_model c1 "A" (17 / 20) =
      c1.pages.map (fun p => (p, 1 / (c1.pages.length : ℚ))) :=
  (transition_model_dangling c1 "A" (17 / 20) (by decide) (by decide)
    (by norm_num) (by decide)).1

/-- C4: for every non-empty graph, every key page with at least one
out-link, and every damping factor in `[0,1]`, the transition model assigns
to each node `p` the probability `(1-d)/N + d/L` if `p` is among the
out-links of `page`, and `(1-d)/N` otherwise. -/
theorem transition_model_linked (c : Corpus) (page : String) (df : ℚ)
    (hne : c.pages ≠ []) (hpage : page ∈ c.pages) (hd : 0 ≤ df ∧ df ≤ 1)
    (hL : 1 ≤ (c.links page).length) (p : String) (hp : p ∈ c.pages) :
    List.lookup p (transition_model c page df) =
      some (if p ∈ c.links page
        then (1 - df) / (c.pages.length : ℚ) + df / ((c.links page).length : ℚ)
        else (1 - df) / (c.pages.length : ℚ)) := by
  rw [transition_model, if_neg (by omega)]
  exact lookup_map_pair c.pages _ p hp

theorem transition_model_linked_witness :
    List.lookup "B" (transition_model c2 "A" (17 / 20)) =
      some (if "B" ∈ c2.links "A"
        then (1 - 17 / 20) / (c2.pages.length : ℚ) +
          (17 / 20) / ((c2.links "A").length : ℚ)
        else (1 - 17 / 20) / (c2.pages.length : ℚ)) :=
  transition_model_linked c2 "A" (17 / 20) (by decide) (by decide)
    (by norm_num) (by decide) "B" (by decide)

/-- C5: for every graph satisfying the data-model invariants, every key
page, and every damping factor, the values of the distribution returned by
the transition model sum to exactly `1` in rational arithmetic. -/
theorem transition_model_sum_one (c : Corpus) (page : String) (df : ℚ)
    (hinv : Invariants c) (hne : c.pages ≠ []) (hpage : page ∈ c.pages) :
    ((transition_model c page df).map Prod.snd).sum = 1 := by
  have hN0 : c.pages.length ≠ 0 := fun h => hne (List.length_eq_zero.mp h)
  have hN : (c.pages.length : ℚ) ≠ 0 := Nat.cast_ne_zero.mpr hN0
  simp only [transition_model]
  by_cases hL : (c.links page).length = 0
  · rw [if_pos hL, List.map_map]
    have hcomp : (Prod.snd ∘ fun p : String => (p, 1 / (c.pages.length : ℚ))) =
        fun _ => 1 / (c.pages.length : ℚ) := rfl
    rw [hcomp, sum_map_const]
    field_simp
  · rw [if_neg hL, List.map_map]
    have hLQ : ((c.links page).length : ℚ) ≠ 0 := Nat.cast_ne_zero.mpr hL
    have hcomp : (Prod.snd ∘ fun p => (p, if p ∈ c.links page
        then (1 - df) / (c.pages.length : ℚ) + df / ((c.links page).length : ℚ)
        else (1 - df) / (c.pages.length : ℚ))) =
        fun p => if p ∈ c.links page
        then (1 - df) / (c.pages.length : ℚ) + df / ((c.links page).length : ℚ)
        else (1 - df) / (c.pages.length : ℚ) := rfl
    rw [hcomp]
    have hsplit : (fun p => if p ∈ c.links page
        then (1 - df) / (c.pages.length : ℚ) + df / ((c.links page).length : ℚ)
        else (1 - df) / (c.pages.length : ℚ)) =
        fun p => (1 - df) / (c.pages.length : ℚ) +
          (if p ∈ c.links page then df / ((c.links page).length : ℚ) else 0) := by
      funext p
      by_cases h : p ∈ c.links page <;> simp [h]
    rw [hsplit, sum_map_add, sum_map_const,
      sum_map_indicator c.pages (c.links page) _ hinv.nodup
        (hinv.links_nodup page hpage) (hinv.links_sub page hpage)]
    field_simp

theorem transition_model_sum_one_witness :
    ((transition_model c2 "A" (17 / 20)).map Prod.snd).sum = 1 :=
  transition_model_sum_one c2 "A" (17 / 20)
    ⟨by decide, by decide, by decide, by decide⟩ (by decide) (by decide)

/-- C10: for every non-empty graph, every page, and every damping factor in
`[0,1]`, the mapping returned by the transition model has exactly the
corpus key list as its domain and every assigned probability lies in
`[0,1]`. -/
theorem transition_model_domain_range (c : Corpus) (page : String) (df : ℚ)
    (hne : c.pages ≠ []) (hd : 0 ≤ df ∧ df ≤ 1) :
    (transition_model c page df).map Prod.fst = c.pages
    ∧ ∀ x ∈ transition_model c page df, 0 ≤ x.2 ∧ x.2 ≤ 1 := by
  have hN0 : c.pages.length ≠ 0 := fun h => hne (List.length_eq_zero.mp h)
  have hN1 : (1 : ℚ) ≤ (c.pages.length : ℚ) := by
    have h1 : 1 ≤ c.pages.length := Nat.one_le_iff_ne_zero.mpr hN0
    exact_mod_cast h1
  obtain ⟨hd0, hd1⟩ := hd
  refine ⟨transition_model_fst c page df, ?_⟩
  intro x hx
  simp only [transition_model] at hx
  by_cases hL : (c.links page).length = 0
  · rw [if_pos hL] at hx
    rcases List.mem_map.mp hx with ⟨p, hp, rfl⟩
    refine ⟨?_, ?_⟩
    · show (0 : ℚ) ≤ 1 / (c.pages.length : ℚ)
      positivity
    · show 1 / ((c.pages.length : ℚ)) ≤ 1
      rw [div_le_one (by linarith)]
      exact hN1
  · rw [if_neg hL] at hx
    rcases List.mem_map.mp hx with ⟨p, hp, rfl⟩
    have hL1 : (1 : ℚ) ≤ ((c.links page).length : ℚ) := by
      have h1 : 1 ≤ (c.links page).length := Nat.one_le_iff_ne_zero.mpr hL
      exact_mod_cast h1
    show 0 ≤ (if p ∈ c.links page
        then (1 - df) / (c.pages.length : ℚ) + df / ((c.links page).length : ℚ)
        else (1 - df) / (c.pages.length : ℚ)) ∧
      (if p ∈ c.links page
        then (1 - df) / (c.pages.length : ℚ) + df / ((c.links page).length : ℚ)
        else (1 - df) / (c.pages.length : ℚ)) ≤ 1
    have hb1 : 0 ≤ (1 - df) / (c.pages.length : ℚ) :=
      div_nonneg (by linarith) (by linarith)
    have hb2 : 0 ≤ df / ((c.links page).length : ℚ) :=
      div_nonneg hd0 (by linarith)
    have hb3 : (1 - df) / (c.pages.length : ℚ) ≤ 1 - df :=
      div_le_self (by linarith) hN1
    have hb4 : df / ((c.links page).length : ℚ) ≤ df := div_le_self hd0 hL1
    by_cases hmem : p ∈ c.links page
    · rw [if_pos hmem]
      constructor <;> linarith
    · rw [if_neg hmem]
      constructor <;> linarith

theorem transition_model_domain_range_witness :
    (transition_model c2 "B" (17 / 20)).map Prod.fst = c2.pages
    ∧ ∀ x ∈ transition_model c2 "B" (17 / 20), 0 ≤ x.2 ∧ x.2 ≤ 1 :=
  transition_model_domain_range c2 "B" (17 / 20) (by decide) (by norm_num)

/-- C1: for every graph satisfying the data-model invariants and damping
factor in `[0,1]`, the sweep of the iterative estimator assigns every page
`p` the new rank `(1-d)/N + d * (Σ_{q → p} old(q)/L(q) + Σ_{dangling q}
old(q)/N)`, every read coming from the previous complete rank vector
`dOld` and never from the partially updated buffer `nd`. -/
theorem iterate_sweep_correct (c : Corpus) (damping_factor : ℚ)
    (dOld nd : String → ℚ) (hinv : Invariants c) (hne : c.pages ≠ [])
    (hd : 0 ≤ damping_factor ∧ damping_factor ≤ 1) (p : String)
    (hp : p ∈ c.pages) :
    sweepLoop c damping_factor dOld c.pages nd p =
      spec_new_rank c damping_factor dOld p :=
  (sweepLoop_mem c damping_factor dOld c.pages nd p hp).trans
    (new_rank_eq_spec c damping_factor dOld p)

theorem iterate_sweep_correct_witness :
    sweepLoop c2 (17 / 20) (fun _ => 1 / 2) c2.pages (fun _ => 0) "A" =
      spec_new_rank c2 (17 / 20) (fun _ => 1 / 2) "A" :=
  iterate_sweep_correct c2 (17 / 20) (fun _ => 1 / 2) (fun _ => 0)
    ⟨by decide, by decide, by decide, by decide⟩ (by decide) (by norm_num)
    "A" (by decide)

/-- C2: for every non-empty graph, the comparison scan of the iterative
estimator produces a value at most `0.001` exactly when every page's
absolute rank change is at most `0.001` (despite its early exit), and the
loop stops after a sweep exactly when that value fails the guard
`pr_value_change > 0.001`. -/
theorem iterate_convergence_check (c : Corpus) (df : ℚ)
    (dOld newD : String → ℚ) (prc : ℚ) (hne : c.pages ≠ []) :
    (checkLoop dOld newD c.pages prc ≤ 1 / 1000 ↔
      ∀ p ∈ c.pages, |dOld p - newD p| ≤ 1 / 1000)
    ∧ ∀ (fuel : Nat) (d nd : String → ℚ) (q : ℚ),
        iterLoop c df (fuel + 1) d nd q =
          if q > 1 / 1000 then
            iterLoop c df fuel (sweepLoop c df d c.pages nd)
              (sweepLoop c df d c.pages nd)
              (checkLoop d (sweepLoop c df d c.pages nd) c.pages q)
          else some d :=
  ⟨checkLoop_le_iff dOld newD c.pages hne prc,
   fun fuel d nd q => iterLoop_succ c df fuel d nd q⟩

theorem iterate_convergence_check_witness :
    checkLoop (fun _ => 1 / 2) (fun _ => 1 / 2) c2.pages (2 / 1000) ≤ 1 / 1000 := by
  have h := (iterate_convergence_check c2 (17 / 20) (fun _ => 1 / 2)
    (fun _ => 1 / 2) (2 / 1000) (by decide)).1
  refine h.mpr ?_
  intro p hp
  norm_num

/-- C6: for every graph satisfying the data-model invariants, every sweep
maps a rank vector summing to `1` to a vector summing to `1` exactly, the
uniform `1/N` initialization sums to `1`, and hence any rank mapping the
iterative estimator returns sums to `1` exactly. -/
theorem iterate_mass_conservation (c : Corpus) (df : ℚ)
    (hinv : Invariants c) (hne : c.pages ≠ []) :
    (∀ dOld nd : String → ℚ, (c.pages.map dOld).sum = 1 →
      (c.pages.map (sweepLoop c df dOld c.pages nd)).sum = 1)
    ∧ (c.pages.map fun _ => 1 / (c.pages.length : ℚ)).sum = 1
    ∧ ∀ (fuel : Nat) (r : String → ℚ),
        iterate_pagerank c df fuel = some r → (c.pages.map r).sum = 1 := by
  have hN0 : c.pages.length ≠ 0 := fun h => hne (List.length_eq_zero.mp h)
  have hN : (c.pages.length : ℚ) ≠ 0 := Nat.cast_ne_zero.mpr hN0
  have hinit : (c.pages.map fun _ => 1 / (c.pages.length : ℚ)).sum = 1 := by
    rw [sum_map_const]
    field_simp
  refine ⟨fun dOld nd h => sweep_sum c df hinv hne dOld nd h, hinit, ?_⟩
  intro fuel r h
  exact iterLoop_sum c df hinv hne fuel _ _ _ r h hinit

theorem iterate_mass_conservation_witness :
    (c2.pages.map fun _ => 1 / (c2.pages.length : ℚ)).sum = 1 :=
  (iterate_mass_conservation c2 (17 / 20)
    ⟨by decide, by decide, by decide, by decide⟩ (by decide)).2.1

/-- C7: for every non-empty graph with distinct keys, positive sample
count `n`, and every sequence of random draws, the visit counters of the
sampling estimator sum to exactly `n`, and the returned rank mapping
(each value a counter divided by `n`) sums to exactly `1`. -/
theorem sample_pagerank_sums (c : Corpus) (df : ℚ) (n : ℤ) (rand : Nat → Nat)
    (hne : c.pages ≠ []) (hnodup : c.pages.Nodup) (hn : 1 ≤ n) :
    (∀ cur ∈ c.pages, (c.pages.map (sample_counts c df n rand cur)).sum = n)
    ∧ ∃ r, sample_pagerank c df n rand = .ok r ∧ (c.pages.map r).sum = 1 := by
  have hcounts : ∀ cur ∈ c.pages,
      (c.pages.map (sample_counts c df n rand cur)).sum = n := by
    intro cur hcur
    have hsc : c.pages.map (sample_counts c df n rand cur) =
        c.pages.map (sampleLoop c df rand 1 (n - 1).toNat cur
          (Function.update (fun _ => (0 : ℤ)) cur 1)) := rfl
    rw [hsc, sampleLoop_sum c df rand hne hnodup,
      sum_map_update c.pages (fun _ => (0 : ℤ)) cur 1 hnodup hcur]
    have hz : (c.pages.map fun _ => (0 : ℤ)).sum = 0 := by simp
    have ht : (((n - 1).toNat : ℤ)) = n - 1 := Int.toNat_of_nonneg (by omega)
    rw [hz, ht]
    ring
  have hlen : ¬ c.pages.length = 0 := fun h => hne (List.length_eq_zero.mp h)
  have hchoice : random_choice c.pages (rand 0) =
      .ok (c.pages.getD (rand 0 % c.pages.length) "") := by
    rw [random_choice, if_neg hlen]
  have hcur : c.pages.getD (rand 0 % c.pages.length) "" ∈ c.pages :=
    getD_mem c.pages _ hne
  have hn0 : ¬ n = 0 := by omega
  refine ⟨hcounts, fun p => ((sample_counts c df n rand
      (c.pages.getD (rand 0 % c.pages.length) "") p : ℤ) : ℚ) / (n : ℚ), ?_, ?_⟩
  · simp only [sample_pagerank, hchoice]
    rw [if_neg hn0]
  · rw [sum_map_div_cast, hcounts _ hcur]
    exact div_self (Int.cast_ne_zero.mpr hn0)

theorem sample_pagerank_sums_witness :
    (c2.pages.map (sample_counts c2 (17 / 20) 3 (fun _ => 0) "A")).sum = 3
    ∧ ∃ r, sample_pagerank c2 (17 / 20) 3 (fun _ => 0) = .ok r ∧
        (c2.pages.map r).sum = 1 := by
  have h := sample_pagerank_sums c2 (17 / 20) 3 (fun _ => 0) (by decide)
    (by decide) (by norm_num)
  exact ⟨h.1 "A" (by decide), h.2⟩

/-- C8 counterexample: on the empty graph the sampling estimator fails
with `IndexError`, not `EmptyCorpus`, and the iterative estimator has not
failed after 5000 sweeps of fuel (its loop never terminates). -/
theorem empty_corpus_counterexample :
    sample_pagerank cEmpty (17 / 20) 10000 (fun _ => 0) =
      Except.error PyError.indexError
    ∧ sample_pagerank cEmpty (17 / 20) 10000 (fun _ => 0) ≠
      Except.error PyError.emptyCorpus
    ∧ iterate_pagerank cEmpty (17 / 20) 5000 = none := by
  refine ⟨rfl, ?_, ?_⟩
  · intro h
    have h3 : (Except.error PyError.indexError : Except PyError (String → ℚ)) =
        Except.error PyError.emptyCorpus := h
    injection h3 with h4
    cases h4
  · exact iterLoop_empty cEmpty rfl (17 / 20) 5000 _ _ _ (by norm_num)

/-- C8 (amended): on the empty graph the sampling estimator fails with an
`IndexError` raised by `random.choice` on the empty key list — not a
dedicated `EmptyCorpus` error — and the iterative estimator raises no
error at all: its comparison loop never updates `pr_value_change`, so the
`while` loop never terminates (it returns `none` at every fuel). -/
theorem empty_corpus_behaviour :
    (∀ (df : ℚ) (n : ℤ) (rand : Nat → Nat),
      sample_pagerank cEmpty df n rand = Except.error PyError.indexError)
    ∧ ∀ (df : ℚ) (fuel : Nat), iterate_pagerank cEmpty df fuel = none := by
  constructor
  · intro df n rand
    rfl
  · intro df fuel
    exact iterLoop_empty cEmpty rfl df fuel _ _ _ (by norm_num)

/-- C9 counterexample: with the invalid sample count `n = -1` the sampling
estimator does not fail with `InvalidConfiguration`; it returns a rank
mapping assigning `-1` to the single page of the corpus. -/
theorem invalid_config_counterexample :
    (sample_pagerank c1 (17 / 20) (-1) (fun _ => 0)).map (fun r => r "A") =
      Except.ok (-1)
    ∧ sample_pagerank c1 (17 / 20) (-1) (fun _ => 0) ≠
      Except.error PyError.invalidConfiguration := by
  have h1 : (sample_pagerank c1 (17 / 20) (-1) (fun _ => 0)).map (fun r => r "A") =
      Except.ok (-1) := by
    norm_num [sample_pagerank, sample_counts, sampleLoop, random_choice, c1,
      Function.update, Except.map]
  refine ⟨h1, ?_⟩
  intro h
  rw [h] at h1
  simp [Except.map] at h1

/-- C9 (amended): the estimators perform no configuration validation and
never raise `InvalidConfiguration`: with `n = -1` the sampler returns a
rank mapping with the negative value `-1`, with `n = 0` it fails with
`ZeroDivisionError` from the final division, and with the out-of-range
damping factor `d = 2` the iterative estimator runs and returns a
result. -/
theorem no_config_validation :
    (sample_pagerank c1 (17 / 20) (-1) (fun _ => 0)).map (fun r => r "A") =
      Except.ok (-1)
    ∧ sample_pagerank c1 (17 / 20) 0 (fun _ => 0) =
      Except.error PyError.zeroDivisionError
    ∧ (iterate_pagerank c1 2 5).map (fun r => r "A") = some 1 := by
  refine ⟨?_, ?_, ?_⟩
  · norm_num [sample_pagerank, sample_counts, sampleLoop, random_choice, c1,
      Function.update, Except.map]
  · rfl
  · norm_num [iterate_pagerank, iterLoop, c1, sweepLoop, checkLoop, new_rank,
      summationLoop, Function.update]

end PageRank
